import Mathlib

/-!
Verification of the `recipe-chat` room relay.

Shallow embedding of the per-room Durable Object (`RoomDurableObject` in the
worker source: `broadcast`, `onMessage`, `streamAssistantReply`) and of the
client conversation reducer (`handleServerMessage` in `useRoomSocket`).
Transport text is modelled as `List Char` (the worker operates on decoded
UTF-8 text); JavaScript `JSON.parse` is modelled by an executable fuel-based
JSON parser; the nondeterministic environment (clock, UUID generator, fetch
response, socket send outcomes) is passed in explicitly as parameters.
-/

/-- Message roles on the wire (`"user" | "assistant"`). -/
inductive Role where
  | user
  | assistant
deriving DecidableEq, Repr

/-- Server-to-client events (`ServerMsg` in the worker source). -/
inductive ServerMsg where
  | message_added (role : Role) (id : String) (text : String) (ts : Nat)
  | assistant_delta (id : String) (text : String)
  | assistant_done (id : String)
  | error (message : String)
deriving DecidableEq, Repr

/-- Client-to-server events (`ClientMsg` in the worker source). -/
inductive ClientMsg where
  | join (roomId : String) (displayName : Option String)
  | user_message (id : String) (text : String)
deriving DecidableEq, Repr

/-- One entry of the client-side conversation (`ChatMessage` in the client). -/
structure ChatMessage where
  id : String
  role : Role
  content : String
  timestamp : Nat
deriving DecidableEq, Repr

/-- JS `Char.isWhitespace`-style predicate backing `String.prototype.trim`. -/
def isWsChar (c : Char) : Bool := c.isWhitespace

/-- Model of JS `String.prototype.trim`: drop whitespace from both ends. -/
def trimChars (l : List Char) : List Char :=
  ((l.dropWhile isWsChar).reverse.dropWhile isWsChar).reverse

/-- `.trim()` on a `String`. -/
def jsTrim (s : String) : String :=
  ⟨trimChars s.data⟩

/-- Prepend a character to the first part of a split result. -/
def consHead (c : Char) : List (List Char) → List (List Char)
  | [] => [[c]]
  | p :: ps => (c :: p) :: ps

/-- Model of JS `buffer.split("\n\n")`: greedy leftmost non-overlapping split
on the two-character separator; always returns at least one part. -/
def splitNN : List Char → List (List Char)
  | [] => [[]]
  | [c] => [[c]]
  | c :: d :: rest =>
    if c = '\n' ∧ d = '\n' then [] :: splitNN rest
    else consHead c (splitNN (d :: rest))

/-- Model of JS `part.split("\n")`. -/
def splitNl : List Char → List (List Char)
  | [] => [[]]
  | c :: rest =>
    if c = '\n' then [] :: splitNl rest else consHead c (splitNl rest)

/-- JSON values as produced by the model of `JSON.parse`.  Number lexemes are
kept verbatim: the relay never inspects numeric values, only shapes. -/
inductive Json where
  | null
  | bool (b : Bool)
  | num (lexeme : List Char)
  | str (s : List Char)
  | arr (elems : List Json)
  | obj (fields : List (List Char × Json))

/-- JSON insignificant whitespace. -/
def isJsonWs (c : Char) : Bool := c = ' ' || c = '\t' || c = '\n' || c = '\r'

/-- Skip JSON insignificant whitespace. -/
def skipWs : List Char → List Char
  | [] => []
  | c :: rest => if isJsonWs c then skipWs rest else c :: rest

/-- Decode a single-character JSON escape (after the backslash). -/
def escChar (c : Char) : Option Char :=
  if c = '"' then some '"'
  else if c = '\\' then some '\\'
  else if c = '/' then some '/'
  else if c = 'b' then some (Char.ofNat 8)
  else if c = 'f' then some (Char.ofNat 12)
  else if c = 'n' then some '\n'
  else if c = 'r' then some '\r'
  else if c = 't' then some '\t'
  else none

/-- Value of one hexadecimal digit. -/
def hexVal (c : Char) : Option Nat :=
  if '0' ≤ c ∧ c ≤ '9' then some (c.toNat - '0'.toNat)
  else if 'a' ≤ c ∧ c ≤ 'f' then some (c.toNat - 'a'.toNat + 10)
  else if 'A' ≤ c ∧ c ≤ 'F' then some (c.toNat - 'A'.toNat + 10)
  else none

/-- Lex the body of a JSON string after the opening quote; returns the decoded
characters and the input remaining after the closing quote.  Lone `\uXXXX`
escapes decode via `Char.ofNat` (surrogate pairing is not modelled; the relay
never depends on it). -/
def lexStr : List Char → Option (List Char × List Char)
  | [] => none
  | c :: rest =>
    if c = '"' then some ([], rest)
    else if c = '\\' then
      match rest with
      | [] => none
      | e :: rest' =>
        if e = 'u' then
          match rest' with
          | a :: b :: c2 :: d :: rest'' =>
            match hexVal a, hexVal b, hexVal c2, hexVal d with
            | some x, some y, some z, some w =>
              (lexStr rest'').map
                (fun r => (Char.ofNat (((x * 16 + y) * 16 + z) * 16 + w) :: r.1, r.2))
            | _, _, _, _ => none
          | _ => none
        else
          match escChar e with
          | some ec => (lexStr rest').map (fun r => (ec :: r.1, r.2))
          | none => none
    else if c.toNat < 32 then none
    else (lexStr rest).map (fun r => (c :: r.1, r.2))

/-- Lex a JSON number; returns the lexeme and the remaining input. -/
def lexNum (input : List Char) : Option (List Char × List Char) :=
  let (sign, r1) := match input with
    | '-' :: r => (['-'], r)
    | _ => (([] : List Char), input)
  let intPart := r1.takeWhile Char.isDigit
  let r2 := r1.dropWhile Char.isDigit
  if intPart = [] then none
  else if intPart.length > 1 ∧ intPart.head? = some '0' then none
  else
    let (fracPart, r3) : List Char × List Char := match r2 with
      | '.' :: d =>
        let ds := d.takeWhile Char.isDigit
        if ds = [] then (['!'], r2) else ('.' :: ds, d.dropWhile Char.isDigit)
      | _ => ([], r2)
    if fracPart = ['!'] then none
    else
      let (expPart, r4) : List Char × List Char := match r3 with
        | 'e' :: t =>
          let (s2, t2) : List Char × List Char := match t with
            | '+' :: u => (['+'], u)
            | '-' :: u => (['-'], u)
            | _ => ([], t)
          let ds := t2.takeWhile Char.isDigit
          if ds = [] then (['!'], r3) else ('e' :: s2 ++ ds, t2.dropWhile Char.isDigit)
        | 'E' :: t =>
          let (s2, t2) : List Char × List Char := match t with
            | '+' :: u => (['+'], u)
            | '-' :: u => (['-'], u)
            | _ => ([], t)
          let ds := t2.takeWhile Char.isDigit
          if ds = [] then (['!'], r3) else ('E' :: s2 ++ ds, t2.dropWhile Char.isDigit)
        | _ => ([], r3)
      if expPart = ['!'] then none
      else some (sign ++ intPart ++ fracPart ++ expPart, r4)

mutual

/-- Parse one JSON value (fuel-indexed model of `JSON.parse`'s grammar). -/
def parseVal : Nat → List Char → Option (Json × List Char)
  | 0, _ => none
  | fuel + 1, input =>
    match skipWs input with
    | [] => none
    | c :: rest =>
      if c = '"' then (lexStr rest).map (fun r => (Json.str r.1, r.2))
      else if c = '\x7b' then parseObjFields fuel rest
      else if c = '[' then parseArrElems fuel rest
      else if c = 't' then
        match rest with
        | 'r' :: 'u' :: 'e' :: r => some (Json.bool true, r)
        | _ => none
      else if c = 'f' then
        match rest with
        | 'a' :: 'l' :: 's' :: 'e' :: r => some (Json.bool false, r)
        | _ => none
      else if c = 'n' then
        match rest with
        | 'u' :: 'l' :: 'l' :: r => some (Json.null, r)
        | _ => none
      else (lexNum (c :: rest)).map (fun r => (Json.num r.1, r.2))

/-- Parse array elements after the opening bracket. -/
def parseArrElems : Nat → List Char → Option (Json × List Char)
  | 0, _ => none
  | fuel + 1, input =>
    match skipWs input with
    | [] => none
    | c :: rest =>
      if c = ']' then some (Json.arr [], rest)
      else
        match parseVal fuel (c :: rest) with
        | none => none
        | some (v, rest') => parseArrTail fuel [v] rest'

/-- Parse `, elem`* `]` after the first array element. -/
def parseArrTail : Nat → List Json → List Char → Option (Json × List Char)
  | 0, _, _ => none
  | fuel + 1, acc, input =>
    match skipWs input with
    | [] => none
    | c :: rest =>
      if c = ']' then some (Json.arr acc.reverse, rest)
      else if c = ',' then
        match parseVal fuel rest with
        | none => none
        | some (v, rest') => parseArrTail fuel (v :: acc) rest'
      else none

/-- Parse object members after the opening brace. -/
def parseObjFields : Nat → List Char → Option (Json × List Char)
  | 0, _ => none
  | fuel + 1, input =>
    match skipWs input with
    | [] => none
    | c :: rest =>
      if c = '\x7d' then some (Json.obj [], rest)
      else if c = '"' then
        match lexStr rest with
        | none => none
        | some (key, rest') =>
          match skipWs rest' with
          | [] => none
          | c2 :: rest'' =>
            if c2 = ':' then
              match parseVal fuel rest'' with
              | none => none
              | some (v, rest3) => parseObjTail fuel [(key, v)] rest3
            else none
      else none

/-- Parse `, "key": value`* `\x7d` after the first object member. -/
def parseObjTail : Nat → List (List Char × Json) → List Char → Option (Json × List Char)
  | 0, _, _ => none
  | fuel + 1, acc, input =>
    match skipWs input with
    | [] => none
    | c :: rest =>
      if c = '\x7d' then some (Json.obj acc.reverse, rest)
      else if c = ',' then
        match skipWs rest with
        | [] => none
        | c2 :: rest' =>
          if c2 = '"' then
            match lexStr rest' with
            | none => none
            | some (key, rest'') =>
              match skipWs rest'' with
              | [] => none
              | c3 :: rest3 =>
                if c3 = ':' then
                  match parseVal fuel rest3 with
                  | none => none
                  | some (v, rest4) => parseObjTail fuel ((key, v) :: acc) rest4
                else none
          else none
      else none

end

/-- Model of `JSON.parse`: parse one value and require only trailing
whitespace after it.  Fuel `2 * length + 2` always suffices: every
recursive descent consumes at least one character per two fuel units. -/
def parseJson (input : List Char) : Option Json :=
  match parseVal (2 * input.length + 2) input with
  | some (v, rest) => if skipWs rest = [] then some v else none
  | none => none

/-- Lookup a key in a parsed JSON object (`json?.key`); JSON.parse keeps the
last of duplicate keys, hence the reversed search.  Non-objects yield
`undefined` (`none`). -/
def getField (j : Json) (key : List Char) : Option Json :=
  match j with
  | .obj fields => (fields.reverse.find? (fun f => f.1 = key)).map Prod.snd
  | _ => none

/-- Index 0 of a parsed JSON array (`json?.[0]`); non-arrays yield `none`. -/
def getIdx0 (j : Json) : Option Json :=
  match j with
  | .arr elems => elems.head?
  | _ => none

/-- The optional chain `json?.choices?.[0]?.delta?.content`, restricted to
string results as in the source's `const delta: string | undefined`. -/
def contentOf (j : Json) : Option (List Char) :=
  match (((getField j "choices".data).bind getIdx0).bind
      (fun d => getField d "delta".data)).bind
      (fun d => getField d "content".data) with
  | some (Json.str s) => some s
  | _ => none

/-- Outcome of the inner per-line loop body of `streamAssistantReply`. -/
inductive LineResult where
  | skip
  | stop
  | delta (s : List Char)
deriving DecidableEq, Repr

/-- One SSE line, as handled by the loop body: lines without the `data:` tag
are ignored; the payload is the rest of the line, trimmed; empty payloads are
ignored; the `[DONE]` sentinel terminates the stream; otherwise the payload is
parsed as JSON (parse failures are ignored) and a truthy
`choices[0].delta.content` string yields a fragment. -/
def processLine (line : List Char) : LineResult :=
  if ¬ ("data:".data.isPrefixOf line) then .skip
  else
    let data := trimChars (line.drop 5)
    if data = [] then .skip
    else if data = "[DONE]".data then .stop
    else
      match parseJson data with
      | none => .skip
      | some j =>
        match contentOf j with
        | some s => if s = [] then .skip else .delta s
        | none => .skip

/-- Run the per-line loop over a list of lines; returns the fragments emitted
in order and whether the sentinel (`return`) was hit. -/
def processLines : List (List Char) → List (List Char) × Bool
  | [] => ([], false)
  | l :: rest =>
    match processLine l with
    | .stop => ([], true)
    | .skip => processLines rest
    | .delta s =>
      let r := processLines rest
      (s :: r.1, r.2)

/-- One result of `reader.read()`: a decoded text chunk, or a transport error
rejecting the read (which throws out of `streamAssistantReply`); end of the
list models `done`. -/
inductive ReadEvent where
  | chunk (s : List Char)
  | fail (msg : String)
deriving DecidableEq, Repr

/-- The lines of all complete (blank-line-terminated) blocks of the buffer:
`parts = buffer.split("\n\n")` minus the retained last part, each split on
`"\n"`. -/
def blockLines (buf : List Char) : List (List Char) :=
  ((splitNN buf).dropLast).flatMap splitNl

/-- The retained trailing part (`parts.pop() ?? ""`). -/
def restBuffer (buf : List Char) : List Char :=
  ((splitNN buf).getLast?).getD []

/-- The read loop of `streamAssistantReply`: appends each chunk to the
buffer, processes the lines of all complete blocks, stops on the sentinel
(discarding the rest of the transport and the retained buffer), and returns
the fragments in order plus the message of a transport error, if one was
thrown. -/
def runStream : List ReadEvent → List Char → List (List Char) × Option String
  | [], _ => ([], none)
  | ReadEvent.fail m :: _, _ => ([], some m)
  | ReadEvent.chunk c :: rest, buffer =>
    let buf := buffer ++ c
    let r := processLines (blockLines buf)
    if r.2 then (r.1, none)
    else
      let r' := runStream rest (restBuffer buf)
      (r.1 ++ r'.1, r'.2)

/-- The upstream `fetch` response as observed by `streamAssistantReply`:
`ok`, `status`, the streamed body (`none` models a missing body), and the
best-effort `resp.text()` used in the thrown error message. -/
structure UpstreamResp where
  ok : Bool
  status : Nat
  bodyChunks : Option (List ReadEvent)
  errText : String
deriving DecidableEq, Repr

/-- The message of the error thrown on a non-success or bodyless response. -/
def upstreamErrMsg (resp : UpstreamResp) : String :=
  "OpenAI error " ++ toString resp.status ++ ": " ++ resp.errText

/-- `streamAssistantReply` after the fetch: throws (`some` message) on
`!resp.ok || !resp.body`, otherwise runs the read loop.  The first component
is the fragments broadcast as `assistant_delta` events before any throw. -/
def streamAssistantReply (resp : UpstreamResp) : List (List Char) × Option String :=
  if ¬ resp.ok then ([], some (upstreamErrMsg resp))
  else
    match resp.bodyChunks with
    | none => ([], some (upstreamErrMsg resp))
    | some evs => runStream evs []

/-- The busy-rejection message broadcast by `onMessage`. -/
def busyMsg : String := "Assistant is busy; try again in a moment."

/-- The events broadcast by one generation session: the assistant
`message_added` (empty text), one `assistant_delta` per fragment, then
`assistant_done` on success or `error` with the caught message
(`e?.message ?? "Assistant error"`). -/
def sessionEvents (aid : String) (ts2 : Nat) (resp : UpstreamResp) : List ServerMsg :=
  let r := streamAssistantReply resp
  ServerMsg.message_added Role.assistant aid "" ts2 ::
    (r.1.map (fun t => ServerMsg.assistant_delta aid ⟨t⟩) ++
      [match r.2 with
       | none => ServerMsg.assistant_done aid
       | some m => ServerMsg.error m])

/-- Observable outcome of one `onMessage` call: the room's generation flag
afterwards, the events broadcast in order, whether the upstream fetch was
issued, and the ghost trace of assignments to `this.generating`. -/
structure HandlerOut where
  newGenerating : Bool
  events : List ServerMsg
  upstreamCalled : Bool
  flagWrites : List Bool
deriving DecidableEq, Repr

/-- `RoomDurableObject.onMessage` on a parsed client message.  The
environment is explicit: `ts1`/`ts2` are the two `Date.now()` reads, `uuid`
the `crypto.randomUUID()` result, `resp` the upstream fetch response.  (The
preceding raw-JSON-parse failure path replies to the sender only and reaches
neither branch modelled here.) -/
def onMessage (generating : Bool) (msg : ClientMsg) (ts1 ts2 : Nat)
    (uuid : String) (resp : UpstreamResp) : HandlerOut :=
  match msg with
  | ClientMsg.join _ _ => ⟨generating, [], false, []⟩
  | ClientMsg.user_message mid text =>
    let userMa := ServerMsg.message_added Role.user mid text ts1
    if generating then
      ⟨generating, [userMa, ServerMsg.error busyMsg], false, []⟩
    else
      let aid := "a_" ++ uuid
      ⟨false, userMa :: sessionEvents aid ts2 resp, true, [true, false]⟩

/-- Hexadecimal digit character (lowercase). -/
def hexDigit (n : Nat) : Char :=
  if n < 10 then Char.ofNat ('0'.toNat + n) else Char.ofNat ('a'.toNat + (n - 10))

/-- `JSON.stringify` escaping of one character inside a string literal. -/
def escapeJsonChar (c : Char) : List Char :=
  if c = '"' then ['\\', '"']
  else if c = '\\' then ['\\', '\\']
  else if c = '\n' then ['\\', 'n']
  else if c = '\r' then ['\\', 'r']
  else if c = '\t' then ['\\', 't']
  else if c.toNat = 8 then ['\\', 'b']
  else if c.toNat = 12 then ['\\', 'f']
  else if c.toNat < 32 then
    ['\\', 'u', '0', '0', hexDigit (c.toNat / 16), hexDigit (c.toNat % 16)]
  else [c]

/-- `JSON.stringify` of a string value. -/
def quoteJson (s : String) : String :=
  ⟨'"' :: s.data.flatMap escapeJsonChar ++ ['"']⟩

/-- The wire form of a role. -/
def roleStr : Role → String
  | Role.user => "user"
  | Role.assistant => "assistant"

/-- `JSON.stringify` of a `ServerMsg`, with the field order of the object
literals in the source. -/
def serializeServerMsg : ServerMsg → String
  | ServerMsg.message_added role mid text ts =>
    "\x7b\"type\":\"message_added\",\"role\":" ++ quoteJson (roleStr role) ++
      ",\"id\":" ++ quoteJson mid ++ ",\"text\":" ++ quoteJson text ++
      ",\"ts\":" ++ toString ts ++ "\x7d"
  | ServerMsg.assistant_delta mid text =>
    "\x7b\"type\":\"assistant_delta\",\"id\":" ++ quoteJson mid ++
      ",\"text\":" ++ quoteJson text ++ "\x7d"
  | ServerMsg.assistant_done mid =>
    "\x7b\"type\":\"assistant_done\",\"id\":" ++ quoteJson mid ++ "\x7d"
  | ServerMsg.error m =>
    "\x7b\"type\":\"error\",\"message\":" ++ quoteJson m ++ "\x7d"

/-- One registered socket: its identity and whether `ws.send` succeeds (an
already-closed socket's send throws). -/
structure Conn where
  cid : Nat
  sendOk : Bool
deriving DecidableEq, Repr

/-- `ws.send(payload)`: throws (`Except.error`) when the socket rejects the
send. -/
def sendTo (c : Conn) (_payload : String) : Except String Unit :=
  if c.sendOk then Except.ok () else Except.error "socket closed"

/-- The `try ... catch` around each send in `broadcast`: the throw is
swallowed; `true` records a delivered send, `false` a failed attempt. -/
def sendCaught (c : Conn) (payload : String) : Bool :=
  match sendTo c payload with
  | Except.ok _ => true
  | Except.error _ => false

/-- `RoomDurableObject.broadcast`: serialize once, then attempt the send on
every registered socket in order, swallowing per-socket failures.  The result
records, per registered socket, its identity and whether delivery succeeded;
the function is total — no failure reaches the caller. -/
def broadcast (sockets : List Conn) (m : ServerMsg) : List (Nat × Bool) :=
  let payload := serializeServerMsg m
  sockets.map (fun c => (c.cid, sendCaught c payload))

/-- Server events as seen by the client's socket `message` listener: the four
known types plus `unknown` for any other `type` string (the reducer's
fall-through). -/
inductive InboundMsg where
  | message_added (role : Role) (id : String) (text : String) (ts : Nat)
  | assistant_delta (id : String) (text : String)
  | assistant_done (id : String)
  | error (message : String)
  | unknown
deriving DecidableEq, Repr

/-- `next[idx] = f(next[idx])` on a copied array: apply `f` at index `i`. -/
def modifyIdx (f : ChatMessage → ChatMessage) : List ChatMessage → Nat → List ChatMessage
  | [], _ => []
  | x :: xs, 0 => f x :: xs
  | x :: xs, n + 1 => x :: modifyIdx f xs n

/-- `handleServerMessage` of `useRoomSocket`: the pure conversation reducer.
`now` is the `Date.now()` read used when a delta arrives for an unknown id;
the `error` case only invokes the `onError` callback and, like
`assistant_done` and unrecognized types, leaves the conversation unchanged. -/
def handleServerMessage (conv : List ChatMessage) (now : Nat) (msg : InboundMsg) :
    List ChatMessage :=
  match msg with
  | InboundMsg.message_added role mid text ts =>
    let payload : ChatMessage := ⟨mid, role, text, ts⟩
    match conv.findIdx? (fun e => e.id = mid) with
    | some i => conv.set i payload
    | none => conv ++ [payload]
  | InboundMsg.assistant_delta mid text =>
    match conv.findIdx? (fun e => e.id = mid) with
    | none => conv ++ [⟨mid, Role.assistant, text, now⟩]
    | some i => modifyIdx (fun e => { e with content := e.content ++ text }) conv i
  | InboundMsg.assistant_done _ => conv
  | InboundMsg.error _ => conv
  | InboundMsg.unknown => conv

/-- `sendUserMessage` of `useRoomSocket`: refuses (reporting "Chat is
offline" and sending nothing) when there is no socket, the socket is not
open, or the text trims to empty; otherwise sends a `user_message` with a
fresh client-minted id and the trimmed text. -/
def sendUserMessage (hasSocket readyOpen : Bool) (text : String) (uuid : String) :
    Option ClientMsg :=
  let trimmed := jsTrim text
  if ¬ hasSocket ∨ ¬ readyOpen ∨ trimmed = "" then none
  else some (ClientMsg.user_message ("u_" ++ uuid) trimmed)

/-- Ghost state for the interleaved room trace: the `generating` flag and the
number of generation sessions currently between `generating = true` (line
setting the flag) and the `finally` that clears it. -/
structure TraceState where
  generating : Bool
  active : Nat
deriving DecidableEq, Repr

/-- Interleaved room events: a `user_message` arrival reaching the
single-flight check, and the `finally` of a running session. -/
inductive TEvent where
  | arrive
  | finish
deriving DecidableEq, Repr

/-- One step of the room trace, mirroring `onMessage`: an arrival with the
flag set broadcasts busy (`true` flag in the result) and changes nothing; an
arrival with the flag clear sets it and opens a session; `finish` is the
`finally` of the open session, clearing the flag. -/
def tstep (s : TraceState) (e : TEvent) : TraceState × Bool :=
  match e with
  | TEvent.arrive =>
    if s.generating then (s, true) else (⟨true, s.active + 1⟩, false)
  | TEvent.finish => (⟨false, s.active - 1⟩, false)

/-- Run a room trace from the initial state (flag clear, no session). -/
def runTrace (evs : List TEvent) : TraceState :=
  evs.foldl (fun s e => (tstep s e).1) ⟨false, 0⟩

/-- Characters needing no JSON escaping and no SSE framing care: printable,
not a quote, not a backslash. -/
def plainChar (c : Char) : Bool :=
  c ≠ '"' && c ≠ '\\' && decide (32 ≤ c.toNat)

/-- The JSON payload of one upstream delta chunk carrying `content = s`. -/
def deltaPayload (s : List Char) : List Char :=
  "\x7b\"choices\":[\x7b\"delta\":\x7b\"content\":\"".data ++ s ++
    "\"\x7d\x7d]\x7d".data

/-- One SSE block carrying one fragment: data line plus blank-line
terminator. -/
def deltaBlock (s : List Char) : List Char :=
  "data: ".data ++ deltaPayload s ++ ['\n', '\n']

/-- A well-formed upstream SSE stream delivering the given fragments. -/
def encodeStream (fs : List (List Char)) : List Char :=
  (fs.map deltaBlock).flatten

/-! ### Helper lemmas -/

/-- The caught send succeeds exactly when the socket's own send does. -/
theorem sendCaught_eq (c : Conn) (p : String) : sendCaught c p = c.sendOk := by
  unfold sendCaught sendTo
  cases c.sendOk <;> simp

/-- The events of a non-busy `user_message`, as one concatenation ending in
the terminal event. -/
theorem onMessage_events_eq (mid text : String) (ts1 ts2 : Nat) (uuid : String)
    (resp : UpstreamResp) :
    (onMessage false (ClientMsg.user_message mid text) ts1 ts2 uuid resp).events =
      (ServerMsg.message_added Role.user mid text ts1 ::
        ServerMsg.message_added Role.assistant ("a_" ++ uuid) "" ts2 ::
        (streamAssistantReply resp).1.map
          (fun t => ServerMsg.assistant_delta ("a_" ++ uuid) ⟨t⟩)) ++
      [match (streamAssistantReply resp).2 with
       | none => ServerMsg.assistant_done ("a_" ++ uuid)
       | some m => ServerMsg.error m] := by
  simp [onMessage, sessionEvents]

/-- Trace invariant: the ghost session count always matches the flag. -/
theorem tstep_foldl_inv (evs : List TEvent) (s : TraceState)
    (h : s.active = if s.generating then 1 else 0) :
    (evs.foldl (fun s e => (tstep s e).1) s).active =
      if (evs.foldl (fun s e => (tstep s e).1) s).generating then 1 else 0 := by
  induction evs generalizing s with
  | nil => exact h
  | cons e rest ih =>
    simp only [List.foldl_cons]
    apply ih
    cases e with
    | arrive =>
      by_cases hg : s.generating
      · simpa [tstep, hg] using h
      · have h0 : s.active = 0 := by simpa [hg] using h
        simp [tstep, hg, h0]
    | finish =>
      have hle : s.active ≤ 1 := by
        by_cases hg : s.generating <;> simp [hg] at h <;> omega
      simp [tstep]
      omega

/-! ### C9: broadcast is best-effort, attempted on every registered socket -/

/-- C9: broadcasting sends the serialized event to every currently registered
connection: the attempts cover exactly the registered sockets, in order, and
each attempt's outcome is that socket's own send outcome — a failure on one
socket neither removes any other socket from the attempt list nor changes any
other outcome; the function is total, so no send failure reaches the caller. -/
theorem broadcast_best_effort (sockets : List Conn) (m : ServerMsg) :
    broadcast sockets m = sockets.map (fun c => (c.cid, c.sendOk)) ∧
    (broadcast sockets m).map Prod.fst = sockets.map Conn.cid := by
  refine ⟨?_, ?_⟩
  · unfold broadcast
    simp [sendCaught_eq]
  · unfold broadcast
    simp

/-! ### C4: the user message is broadcast before the busy check -/

/-- C4: for every received `user_message`, the first broadcast event is the
`message_added` (role user) event with the client-supplied id, the message
text and the server timestamp — for both values of the generation flag — and
when the flag is set the handler still broadcasts exactly that event followed
by the busy error. -/
theorem user_message_broadcast_first (generating : Bool) (mid text : String)
    (ts1 ts2 : Nat) (uuid : String) (resp : UpstreamResp) :
    (onMessage generating (ClientMsg.user_message mid text) ts1 ts2 uuid resp).events.head? =
      some (ServerMsg.message_added Role.user mid text ts1) ∧
    (generating = true →
      (onMessage generating (ClientMsg.user_message mid text) ts1 ts2 uuid resp).events =
        [ServerMsg.message_added Role.user mid text ts1, ServerMsg.error busyMsg]) := by
  cases generating <;> simp [onMessage, sessionEvents]

/-- Witness for C4 at a concrete busy room. -/
theorem user_message_broadcast_first_witness :
    (onMessage true (ClientMsg.user_message "u1" "hi") 3 4 "x"
        ⟨true, 200, some [], ""⟩).events =
      [ServerMsg.message_added Role.user "u1" "hi" 3, ServerMsg.error busyMsg] :=
  (user_message_broadcast_first true "u1" "hi" 3 4 "x" ⟨true, 200, some [], ""⟩).2 rfl

/-! ### C1: single-flight invariant -/

/-- C1: a `user_message` arriving while the generation flag is set is fully
characterized: the handler broadcasts the user `message_added` followed by
the busy `error`, issues no upstream request, writes nothing to the flag, and
leaves it set; moreover, over every interleaved sequence of arrivals and
session finishes the number of active generation sessions never exceeds
one. -/
theorem single_flight (mid text : String) (ts1 ts2 : Nat) (uuid : String)
    (resp : UpstreamResp) (evs : List TEvent) :
    onMessage true (ClientMsg.user_message mid text) ts1 ts2 uuid resp =
      ⟨true, [ServerMsg.message_added Role.user mid text ts1, ServerMsg.error busyMsg],
        false, []⟩ ∧
    (runTrace evs).active ≤ 1 := by
  refine ⟨rfl, ?_⟩
  have hinv := tstep_foldl_inv evs ⟨false, 0⟩ (by simp)
  unfold runTrace
  rw [hinv]
  split <;> omega

/-! ### C2: the flag is cleared exactly once on every exit path -/

/-- C2: for every generation begun (flag clear on entry), the handler writes
the flag exactly twice — set once, cleared once — on every exit path, ends
with the flag clear, and converts every failure (upstream non-success or
missing body, or an error thrown during streaming) into a final broadcast
`error` event; the handler is a total function, so no failure escapes it. -/
theorem generation_lock_released (mid text : String) (ts1 ts2 : Nat) (uuid : String)
    (resp : UpstreamResp) :
    (onMessage false (ClientMsg.user_message mid text) ts1 ts2 uuid resp).flagWrites =
      [true, false] ∧
    (onMessage false (ClientMsg.user_message mid text) ts1 ts2 uuid resp).newGenerating =
      false ∧
    (∀ m, (streamAssistantReply resp).2 = some m →
      (onMessage false (ClientMsg.user_message mid text) ts1 ts2 uuid resp).events.getLast? =
        some (ServerMsg.error m)) ∧
    ((resp.ok = false ∨ resp.bodyChunks = none) →
      (onMessage false (ClientMsg.user_message mid text) ts1 ts2 uuid resp).events.getLast? =
        some (ServerMsg.error (upstreamErrMsg resp))) := by
  refine ⟨rfl, rfl, ?_, ?_⟩
  · intro m hm
    rw [onMessage_events_eq, List.getLast?_concat, hm]
  · intro hfail
    have hm : (streamAssistantReply resp).2 = some (upstreamErrMsg resp) := by
      unfold streamAssistantReply
      rcases hfail with h | h
      · simp [h]
      · by_cases hok : resp.ok
        · simp [hok, h]
        · simp [hok]
    rw [onMessage_events_eq, List.getLast?_concat, hm]

/-- Witness for C2 at a concrete failing upstream response. -/
theorem generation_lock_released_witness :
    (streamAssistantReply ⟨false, 500, some [], "boom"⟩).2 =
      some "OpenAI error 500: boom" ∧
    (onMessage false (ClientMsg.user_message "u1" "hi") 1 2 "x"
        ⟨false, 500, some [], "boom"⟩).events.getLast? =
      some (ServerMsg.error "OpenAI error 500: boom") ∧
    (onMessage false (ClientMsg.user_message "u1" "hi") 1 2 "x"
        ⟨false, 500, some [], "boom"⟩).flagWrites = [true, false] :=
  ⟨by rfl,
    (generation_lock_released "u1" "hi" 1 2 "x" ⟨false, 500, some [], "boom"⟩).2.2.1
      "OpenAI error 500: boom" (by rfl),
    (generation_lock_released "u1" "hi" 1 2 "x" ⟨false, 500, some [], "boom"⟩).1⟩

/-! ### C3: identifier continuity for assistant sessions -/

/-- The identifier referenced by a delta or terminal event, if any. -/
def deltaDoneId : ServerMsg → Option String
  | ServerMsg.assistant_delta i _ => some i
  | ServerMsg.assistant_done i => some i
  | _ => none

/-- C3: in a generation session every `assistant_delta` and `assistant_done`
event carries the session's assistant identifier, sits strictly after
position 1, and position 1 holds the `message_added` (role assistant) event
introducing exactly that identifier — so no delta or terminal event ever
references an identifier not first introduced by a `message_added` event. -/
theorem assistant_id_continuity (mid text : String) (ts1 ts2 : Nat) (uuid : String)
    (resp : UpstreamResp) (k : Nat) (e : ServerMsg) (i : String)
    (hk : (onMessage false (ClientMsg.user_message mid text) ts1 ts2 uuid resp).events[k]? =
      some e)
    (hid : deltaDoneId e = some i) :
    i = "a_" ++ uuid ∧ 1 < k ∧
      (onMessage false (ClientMsg.user_message mid text) ts1 ts2 uuid resp).events[1]? =
        some (ServerMsg.message_added Role.assistant ("a_" ++ uuid) "" ts2) := by
  rw [onMessage_events_eq, List.cons_append, List.cons_append] at hk
  rcases k with _ | k1
  · simp only [List.getElem?_cons_zero, Option.some.injEq] at hk
    rw [← hk] at hid
    simp [deltaDoneId] at hid
  rcases k1 with _ | k2
  · simp only [List.getElem?_cons_succ, List.getElem?_cons_zero, Option.some.injEq] at hk
    rw [← hk] at hid
    simp [deltaDoneId] at hid
  · simp only [List.getElem?_cons_succ] at hk
    have hmem := List.getElem?_mem hk
    have hi : i = "a_" ++ uuid := by
      rcases List.mem_append.mp hmem with hL | hT
      · obtain ⟨t, _, rfl⟩ := List.mem_map.mp hL
        simp [deltaDoneId] at hid
        exact hid.symm
      · simp only [List.mem_singleton] at hT
        subst hT
        rcases hs : (streamAssistantReply resp).2 with _ | m
        · rw [hs] at hid
          simp [deltaDoneId] at hid
          exact hid.symm
        · rw [hs] at hid
          simp [deltaDoneId] at hid
    refine ⟨hi, by omega, ?_⟩
    rw [onMessage_events_eq, List.cons_append, List.cons_append]
    simp

/-- Witness for C3 at a concrete one-fragment stream, instantiated at the
delta event (position 2). -/
theorem assistant_id_continuity_witness :
    (onMessage false (ClientMsg.user_message "u1" "q") 1 2 "X"
        ⟨true, 200, some [ReadEvent.chunk
          ("data: \x7b\"choices\":[\x7b\"delta\":\x7b\"content\":\"Pre\"\x7d\x7d]\x7d\n\n").data],
          ""⟩).events[2]? = some (ServerMsg.assistant_delta "a_X" "Pre") ∧
    ("a_X" = "a_" ++ "X" ∧ 1 < 2 ∧
      (onMessage false (ClientMsg.user_message "u1" "q") 1 2 "X"
        ⟨true, 200, some [ReadEvent.chunk
          ("data: \x7b\"choices\":[\x7b\"delta\":\x7b\"content\":\"Pre\"\x7d\x7d]\x7d\n\n").data],
          ""⟩).events[1]? =
        some (ServerMsg.message_added Role.assistant ("a_" ++ "X") "" 2)) :=
  ⟨by decide,
    assistant_id_continuity "u1" "q" 1 2 "X" _ 2
      (ServerMsg.assistant_delta "a_X" "Pre") "a_X" (by decide) (by decide)⟩

/-! ### C6: sentinel termination -/

/-- A stop line makes `processLines` terminate at that line: the fragments
are those of the preceding lines and everything after the sentinel is
dropped. -/
theorem processLines_stop (ls1 : List (List Char)) (l : List Char)
    (ls2 : List (List Char)) (hl : processLine l = LineResult.stop)
    (h1 : (processLines ls1).2 = false) :
    processLines (ls1 ++ l :: ls2) = ((processLines ls1).1, true) := by
  induction ls1 with
  | nil => simp [processLines, hl]
  | cons a tl ih =>
    cases hpa : processLine a with
    | stop => simp [processLines, hpa] at h1
    | skip =>
      simp only [List.cons_append, processLines, hpa, List.append_eq] at h1 ⊢
      exact ih h1
    | delta s =>
      simp only [List.cons_append, processLines, hpa, List.append_eq] at h1 ⊢
      rw [ih h1]

/-- C6: (i) a data line whose trimmed payload is the sentinel is a stop
line; (ii) a stop line terminates fragment production at that line,
discarding all later lines; (iii) when the sentinel fires in a chunk, the
read loop returns the fragments gathered so far and ignores the rest of the
transport and the retained buffer; (iv) a session whose read loop reports no
error ends with `assistant_done`. -/
theorem sentinel_terminates :
    (∀ l, "data:".data.isPrefixOf l = true → trimChars (l.drop 5) = "[DONE]".data →
      processLine l = LineResult.stop) ∧
    (∀ ls1 l ls2, processLine l = LineResult.stop → (processLines ls1).2 = false →
      processLines (ls1 ++ l :: ls2) = ((processLines ls1).1, true)) ∧
    (∀ buffer c rest, (processLines (blockLines (buffer ++ c))).2 = true →
      runStream (ReadEvent.chunk c :: rest) buffer =
        ((processLines (blockLines (buffer ++ c))).1, none)) ∧
    (∀ aid ts2 resp evs, resp.ok = true → resp.bodyChunks = some evs →
      (runStream evs []).2 = none →
      (sessionEvents aid ts2 resp).getLast? = some (ServerMsg.assistant_done aid)) := by
  refine ⟨?_, processLines_stop, ?_, ?_⟩
  · intro l h1 h2
    simp [processLine, h1, h2]
  · intro buffer c rest h
    simp [runStream, h]
  · intro aid ts2 resp evs hok hb hs
    have hr : (streamAssistantReply resp).2 = none := by
      unfold streamAssistantReply
      simp [hok, hb, hs]
    unfold sessionEvents
    rw [← List.cons_append, List.getLast?_concat, hr]

/-- Witness for C6: the second chunk and the trailing data of the first are
discarded once the sentinel line is read. -/
theorem sentinel_terminates_witness :
    processLine "data: [DONE]".data = LineResult.stop ∧
    processLines ([("data: \x7b\"choices\":[\x7b\"delta\":\x7b\"content\":\"Pre\"\x7d\x7d]\x7d").data] ++
        "data: [DONE]".data ::
        [("data: \x7b\"choices\":[\x7b\"delta\":\x7b\"content\":\"LATE\"\x7d\x7d]\x7d").data]) =
      ((processLines [("data: \x7b\"choices\":[\x7b\"delta\":\x7b\"content\":\"Pre\"\x7d\x7d]\x7d").data]).1, true) ∧
    runStream
        [ReadEvent.chunk ("data: [DONE]\n\ndata: \x7b\"choices\":[\x7b\"delta\":\x7b\"content\":\"LATE\"\x7d\x7d]\x7d\n\n").data,
          ReadEvent.chunk ("data: \x7b\"choices\":[\x7b\"delta\":\x7b\"content\":\"LATER\"\x7d\x7d.]\x7d\n\n").data]
        [] =
      ((processLines (blockLines ([] ++
        ("data: [DONE]\n\ndata: \x7b\"choices\":[\x7b\"delta\":\x7b\"content\":\"LATE\"\x7d\x7d]\x7d\n\n").data))).1,
        none) ∧
    (sessionEvents "a" 7
        ⟨true, 200, some [ReadEvent.chunk "data: [DONE]\n\n".data], ""⟩).getLast? =
      some (ServerMsg.assistant_done "a") :=
  ⟨sentinel_terminates.1 "data: [DONE]".data (by decide) (by decide),
    sentinel_terminates.2.1 _ "data: [DONE]".data _ (by decide) (by decide),
    sentinel_terminates.2.2.1 [] _ _ (by decide),
    sentinel_terminates.2.2.2 "a" 7 _ [ReadEvent.chunk "data: [DONE]\n\n".data]
      rfl rfl (by decide)⟩

/-! ### C8: malformed or tagless lines are skipped, the stream continues -/

/-- A skip line is transparent to `processLines`. -/
theorem processLines_skip (ls1 : List (List Char)) (l : List Char)
    (ls2 : List (List Char)) (hl : processLine l = LineResult.skip) :
    processLines (ls1 ++ l :: ls2) = processLines (ls1 ++ ls2) := by
  induction ls1 with
  | nil => simp [processLines, hl]
  | cons a tl ih =>
    cases hpa : processLine a with
    | stop => simp [processLines, hpa]
    | skip => simpa only [List.cons_append, processLines, hpa, List.append_eq] using ih
    | delta s => simp only [List.cons_append, processLines, hpa, List.append_eq, ih]

/-- C8: (i) a line without the `data:` tag is skipped; (ii) a data line
whose payload is not the sentinel and fails to parse as JSON is skipped;
(iii) a skipped line is transparent: the remaining lines produce exactly the
fragments and termination they would produce without it — fragment
production is not terminated and the session does not abort. -/
theorem malformed_lines_skipped :
    (∀ l, "data:".data.isPrefixOf l = false → processLine l = LineResult.skip) ∧
    (∀ l, "data:".data.isPrefixOf l = true →
      trimChars (l.drop 5) ≠ "[DONE]".data →
      parseJson (trimChars (l.drop 5)) = none →
      processLine l = LineResult.skip) ∧
    (∀ ls1 l ls2, processLine l = LineResult.skip →
      processLines (ls1 ++ l :: ls2) = processLines (ls1 ++ ls2)) := by
  refine ⟨?_, ?_, processLines_skip⟩
  · intro l h1
    simp [processLine, h1]
  · intro l h1 h2 h3
    by_cases hd : trimChars (l.drop 5) = [] <;>
      simp [processLine, h1, h2, h3, hd]

/-- Witness for C8: a tagless line and a garbled data line are both skipped
and a following well-formed line still yields its fragment. -/
theorem malformed_lines_skipped_witness :
    processLine "event: ping".data = LineResult.skip ∧
    processLine "data: \x7boops".data = LineResult.skip ∧
    processLines (["data: \x7boops".data] ++
        "event: ping".data ::
        [("data: \x7b\"choices\":[\x7b\"delta\":\x7b\"content\":\"Pre\"\x7d\x7d]\x7d").data]) =
      processLines (["data: \x7boops".data] ++
        [("data: \x7b\"choices\":[\x7b\"delta\":\x7b\"content\":\"Pre\"\x7d\x7d]\x7d").data]) ∧
    processLines
        ["data: \x7boops".data,
          ("data: \x7b\"choices\":[\x7b\"delta\":\x7b\"content\":\"Pre\"\x7d\x7d]\x7d").data] =
      ([['P', 'r', 'e']], false) :=
  ⟨malformed_lines_skipped.1 "event: ping".data (by decide),
    malformed_lines_skipped.2.1 "data: \x7boops".data (by decide) (by decide) (by rfl),
    malformed_lines_skipped.2.2 _ "event: ping".data _ (by decide),
    by decide⟩

/-! ### C5: empty-after-trim user messages -/

/-- Whether an event is an `error` event. -/
def isErrorEvent : ServerMsg → Bool
  | ServerMsg.error _ => true
  | _ => false

/-- Counterexample to C5: on a whitespace-only `user_message` the server
handler broadcasts no `error` event at all and does start a generation
(the upstream fetch is issued). -/
theorem empty_text_counterexample :
    trimChars "   ".data = [] ∧
    (onMessage false (ClientMsg.user_message "u1" "   ") 0 0 "x"
        ⟨true, 200, some [], ""⟩).events.all (fun e => !isErrorEvent e) = true ∧
    (onMessage false (ClientMsg.user_message "u1" "   ") 0 0 "x"
        ⟨true, 200, some [], ""⟩).upstreamCalled = true := by
  decide

/-- C5 (amended): the empty-after-trim rejection lives in the client, not
the room handler — `sendUserMessage` refuses to send such text (reporting
"Chat is offline" and sending nothing), while the server handler performs no
emptiness check: it broadcasts the `message_added` (role user) event with
the text as received, issues the upstream request when no generation is in
progress, and broadcasts an `error` only on upstream failure. -/
theorem empty_text_amended :
    (∀ uuid text, jsTrim text = "" → sendUserMessage true true text uuid = none) ∧
    (∀ mid text ts1 ts2 uuid resp, trimChars text.data = [] →
      (onMessage false (ClientMsg.user_message mid text) ts1 ts2 uuid resp).events.head? =
        some (ServerMsg.message_added Role.user mid text ts1) ∧
      (onMessage false (ClientMsg.user_message mid text) ts1 ts2 uuid resp).upstreamCalled =
        true ∧
      ((streamAssistantReply resp).2 = none →
        (onMessage false (ClientMsg.user_message mid text) ts1 ts2 uuid
          resp).events.all (fun e => !isErrorEvent e) = true)) := by
  constructor
  · intro uuid text h
    simp [sendUserMessage, h]
  · intro mid text ts1 ts2 uuid resp _
    refine ⟨rfl, rfl, ?_⟩
    intro hn
    rw [onMessage_events_eq, hn]
    simp [List.all_append, List.all_map, isErrorEvent, Function.comp]

/-- Witness for C5 (amended) at whitespace-only text. -/
theorem empty_text_amended_witness :
    sendUserMessage true true "   " "u" = none ∧
    (onMessage false (ClientMsg.user_message "u1" " ") 0 0 "x"
        ⟨true, 200, some [], ""⟩).events.head? =
      some (ServerMsg.message_added Role.user "u1" " " 0) ∧
    (onMessage false (ClientMsg.user_message "u1" " ") 0 0 "x"
        ⟨true, 200, some [], ""⟩).upstreamCalled = true ∧
    (onMessage false (ClientMsg.user_message "u1" " ") 0 0 "x"
        ⟨true, 200, some [], ""⟩).events.all (fun e => !isErrorEvent e) = true :=
  ⟨empty_text_amended.1 "u" "   " (by decide),
    (empty_text_amended.2 "u1" " " 0 0 "x" ⟨true, 200, some [], ""⟩ (by decide)).1,
    (empty_text_amended.2 "u1" " " 0 0 "x" ⟨true, 200, some [], ""⟩ (by decide)).2.1,
    (empty_text_amended.2 "u1" " " 0 0 "x" ⟨true, 200, some [], ""⟩ (by decide)).2.2 (by rfl)⟩

/-! ### C10: client conversation reducer -/

/-- `modifyIdx` preserves length. -/
theorem modifyIdx_length (f : ChatMessage → ChatMessage) (l : List ChatMessage) (i : Nat) :
    (modifyIdx f l i).length = l.length := by
  induction l generalizing i with
  | nil => rfl
  | cons x xs ih =>
    cases i with
    | zero => rfl
    | succ n => simpa [modifyIdx] using ih n

/-- `modifyIdx` applies `f` at the target index. -/
theorem getElem?_modifyIdx_self (f : ChatMessage → ChatMessage) (l : List ChatMessage)
    (i : Nat) : (modifyIdx f l i)[i]? = (l[i]?).map f := by
  induction l generalizing i with
  | nil => simp [modifyIdx]
  | cons x xs ih =>
    cases i with
    | zero => simp [modifyIdx]
    | succ n => simpa [modifyIdx] using ih n

/-- `modifyIdx` leaves every other index unchanged. -/
theorem getElem?_modifyIdx_ne (f : ChatMessage → ChatMessage) (l : List ChatMessage)
    (i j : Nat) (h : j ≠ i) : (modifyIdx f l i)[j]? = l[j]? := by
  induction l generalizing i j with
  | nil => simp [modifyIdx]
  | cons x xs ih =>
    cases i with
    | zero =>
      cases j with
      | zero => exact absurd rfl h
      | succ m => simp [modifyIdx]
    | succ n =>
      cases j with
      | zero => simp [modifyIdx]
      | succ m =>
        simp only [modifyIdx, List.getElem?_cons_succ]
        exact ih n m (fun hc => h (by rw [hc]))

/-- C10: the client reducer — a `message_added` whose id already exists
replaces that entry in place (same position, length unchanged); an
`assistant_delta` for an unknown id appends a new assistant message seeded
with the fragment; a delta for a known id appends the fragment to that
entry's content in place, leaving every other entry and the length
unchanged; `assistant_done` and unrecognized event types leave the
conversation unchanged. -/
theorem client_reducer_cases :
    (∀ conv (now : Nat) role mid text ts i,
      conv.findIdx? (fun e => e.id = mid) = some i →
      handleServerMessage conv now (InboundMsg.message_added role mid text ts) =
        conv.set i ⟨mid, role, text, ts⟩ ∧
      (handleServerMessage conv now (InboundMsg.message_added role mid text ts)).length =
        conv.length) ∧
    (∀ conv (now : Nat) mid text,
      conv.findIdx? (fun e => e.id = mid) = none →
      handleServerMessage conv now (InboundMsg.assistant_delta mid text) =
        conv ++ [⟨mid, Role.assistant, text, now⟩]) ∧
    (∀ conv (now : Nat) mid text i,
      conv.findIdx? (fun e => e.id = mid) = some i →
      (handleServerMessage conv now (InboundMsg.assistant_delta mid text)).length =
        conv.length ∧
      (handleServerMessage conv now (InboundMsg.assistant_delta mid text))[i]? =
        (conv[i]?).map (fun e => { e with content := e.content ++ text }) ∧
      (∀ j, j ≠ i →
        (handleServerMessage conv now (InboundMsg.assistant_delta mid text))[j]? =
          conv[j]?)) ∧
    (∀ conv (now : Nat) mid,
      handleServerMessage conv now (InboundMsg.assistant_done mid) = conv) ∧
    (∀ conv (now : Nat), handleServerMessage conv now InboundMsg.unknown = conv) := by
  refine ⟨?_, ?_, ?_, fun _ _ _ => rfl, fun _ _ => rfl⟩
  · intro conv now role mid text ts i h
    refine ⟨by simp [handleServerMessage, h], ?_⟩
    simp [handleServerMessage, h, List.length_set]
  · intro conv now mid text h
    simp [handleServerMessage, h]
  · intro conv now mid text i h
    refine ⟨?_, ?_, ?_⟩
    · simp [handleServerMessage, h, modifyIdx_length]
    · simp [handleServerMessage, h, getElem?_modifyIdx_self]
    · intro j hj
      simp [handleServerMessage, h, getElem?_modifyIdx_ne _ _ _ _ hj]

/-- Witness for C10 at a concrete two-entry conversation. -/
theorem client_reducer_cases_witness :
    handleServerMessage [⟨"a", Role.assistant, "x", 1⟩, ⟨"b", Role.user, "t", 2⟩] 9
        (InboundMsg.message_added Role.user "a" "new" 7) =
      [⟨"a", Role.assistant, "x", 1⟩, ⟨"b", Role.user, "t", 2⟩].set 0
        ⟨"a", Role.user, "new", 7⟩ ∧
    handleServerMessage [⟨"a", Role.assistant, "x", 1⟩] 9
        (InboundMsg.assistant_delta "b" "yz") =
      [⟨"a", Role.assistant, "x", 1⟩] ++ [⟨"b", Role.assistant, "yz", 9⟩] ∧
    (handleServerMessage [⟨"a", Role.assistant, "x", 1⟩, ⟨"b", Role.user, "t", 2⟩] 9
        (InboundMsg.assistant_delta "a" "yz"))[0]? =
      ([(⟨"a", Role.assistant, "x", 1⟩ : ChatMessage), ⟨"b", Role.user, "t", 2⟩][0]?).map
        (fun e => { e with content := e.content ++ "yz" }) ∧
    handleServerMessage [⟨"a", Role.assistant, "x", 1⟩] 9
        (InboundMsg.assistant_done "a") = [⟨"a", Role.assistant, "x", 1⟩] :=
  ⟨(client_reducer_cases.1 _ 9 Role.user "a" "new" 7 0 (by decide)).1,
    client_reducer_cases.2.1 _ 9 "b" "yz" (by decide),
    (client_reducer_cases.2.2.1 _ 9 "a" "yz" 0 (by decide)).2.1,
    client_reducer_cases.2.2.2.1 _ 9 "a"⟩

/-! ### C7: stream fragment ordering, under arbitrary chunking -/

/-- `consHead` never yields an empty split. -/
theorem consHead_ne_nil (c : Char) (L : List (List Char)) : consHead c L ≠ [] := by
  cases L <;> simp [consHead]

/-- A split always has at least one part (JS `split` never returns `[]`). -/
theorem splitNN_ne_nil (l : List Char) : splitNN l ≠ [] := by
  induction l using splitNN.induct with
  | case1 => simp [splitNN]
  | case2 c => simp [splitNN]
  | case3 c d rest h ih => simp [splitNN, h]
  | case4 c d rest h ih =>
    rw [splitNN, if_neg h]
    exact consHead_ne_nil _ _

/-- Uniform unfolding of `splitNN` on a cons. -/
theorem splitNN_cons (c : Char) (x : List Char) :
    splitNN (c :: x) =
      if c = '\n' ∧ x.head? = some '\n' then [] :: splitNN x.tail
      else consHead c (splitNN x) := by
  match x with
  | [] => simp [splitNN, consHead]
  | d :: rest =>
    by_cases hc : c = '\n' ∧ d = '\n'
    · simp [splitNN, hc]
    · rw [splitNN, if_neg hc, if_neg (by simpa using hc)]

/-- A one-part split is the identity: the input had no separator. -/
theorem splitNN_eq_single : ∀ (x p : List Char), splitNN x = [p] → p = x := by
  intro x
  induction x with
  | nil =>
    intro p h
    simp [splitNN] at h
    exact h
  | cons c cs ih =>
    intro p h
    rw [splitNN_cons] at h
    split at h
    · simp only [List.cons.injEq] at h
      exact absurd h.2 (splitNN_ne_nil cs.tail)
    · rcases hs : splitNN cs with _ | ⟨q, qs⟩
      · exact absurd hs (splitNN_ne_nil cs)
      · rw [hs] at h
        simp only [consHead, List.cons.injEq] at h
        have hq : q = cs := ih q (by rw [hs, h.2])
        rw [← h.1, hq]

/-- Splitting a concatenation: the complete parts of `a` survive unchanged,
and the retained last part of `a` is re-split together with `b` — the
correctness core of the relay's cross-chunk buffering. -/
theorem splitNN_append : ∀ (a b : List Char),
    splitNN (a ++ b) = (splitNN a).dropLast ++ splitNN (restBuffer a ++ b) := by
  intro a
  induction a using splitNN.induct with
  | case1 =>
    intro b
    simp [splitNN, restBuffer]
  | case2 c =>
    intro b
    simp [splitNN, restBuffer]
  | case3 c d rest h ih =>
    intro b
    obtain ⟨hc, hd⟩ := h
    subst hc; subst hd
    obtain ⟨q, qs, hq⟩ := List.exists_cons_of_ne_nil (splitNN_ne_nil rest)
    have lhs : splitNN (('\n' :: '\n' :: rest) ++ b) = [] :: splitNN (rest ++ b) := by
      simp [splitNN]
    have hsa : splitNN ('\n' :: '\n' :: rest) = [] :: splitNN rest := by simp [splitNN]
    rw [lhs, ih b]
    simp only [restBuffer, hsa, hq]
    simp [List.getLast?_cons_cons]
  | case4 c d rest h ih =>
    intro b
    have hlhs : splitNN ((c :: d :: rest) ++ b) = consHead c (splitNN ((d :: rest) ++ b)) := by
      rw [List.cons_append, splitNN_cons]
      rw [if_neg (by simpa using h)]
    have hsa : splitNN (c :: d :: rest) = consHead c (splitNN (d :: rest)) := by
      rw [splitNN, if_neg h]
    rcases hs : splitNN (d :: rest) with _ | ⟨q, qs⟩
    · exact absurd hs (splitNN_ne_nil _)
    rcases qs with _ | ⟨q2, qs2⟩
    · -- `a` is a single part: the right-hand side re-splits all of `a ++ b`
      have hq : q = d :: rest := splitNN_eq_single _ _ hs
      subst hq
      have hrb1 : restBuffer (d :: rest) = d :: rest := by simp [restBuffer, hs]
      have hrb2 : restBuffer (c :: d :: rest) = c :: d :: rest := by
        simp [restBuffer, hsa, hs, consHead]
      have hdl1 : (splitNN (d :: rest)).dropLast = [] := by simp [hs]
      have hdl2 : (splitNN (c :: d :: rest)).dropLast = [] := by
        simp [hsa, hs, consHead]
      rw [hlhs, ih b, hrb1, hdl1, hdl2, hrb2, List.nil_append, List.nil_append, ← hlhs]
    · -- at least two parts: the head part of `a` is complete and survives
      have hrb : restBuffer (c :: d :: rest) = restBuffer (d :: rest) := by
        simp [restBuffer, hsa, hs, consHead, List.getLast?_cons_cons]
      have hdl1 : (splitNN (d :: rest)).dropLast = q :: (q2 :: qs2).dropLast := by
        simp [hs]
      have hdl2 : (splitNN (c :: d :: rest)).dropLast = (c :: q) :: (q2 :: qs2).dropLast := by
        simp [hsa, hs, consHead]
      rw [hlhs, ih b, hdl1, hdl2, hrb]
      simp [consHead]

/-- Processing concatenated line lists: a stop in the first part hides the
second; otherwise fragments concatenate and termination comes from the
second part. -/
theorem processLines_append (l1 l2 : List (List Char)) :
    processLines (l1 ++ l2) =
      if (processLines l1).2 then ((processLines l1).1, true)
      else ((processLines l1).1 ++ (processLines l2).1, (processLines l2).2) := by
  induction l1 with
  | nil => simp [processLines]
  | cons a tl ih =>
    cases hpa : processLine a with
    | stop => simp [processLines, hpa]
    | skip => simpa [processLines, hpa, List.append_eq] using ih
    | delta s =>
      simp only [List.cons_append, processLines, hpa, List.append_eq, ih]
      by_cases h2 : (processLines tl).2 <;> simp [h2]

/-- Merging two adjacent chunks does not change the read loop's outcome:
the buffering logic is chunk-boundary invariant. -/
theorem runStream_merge (buffer c1 c2 : List Char) (rest : List ReadEvent) :
    runStream (ReadEvent.chunk c1 :: ReadEvent.chunk c2 :: rest) buffer =
      runStream (ReadEvent.chunk (c1 ++ c2) :: rest) buffer := by
  have hsplit : splitNN ((buffer ++ c1) ++ c2) =
      (splitNN (buffer ++ c1)).dropLast ++ splitNN (restBuffer (buffer ++ c1) ++ c2) :=
    splitNN_append (buffer ++ c1) c2
  have hne := splitNN_ne_nil (restBuffer (buffer ++ c1) ++ c2)
  have hbl : blockLines (buffer ++ (c1 ++ c2)) =
      blockLines (buffer ++ c1) ++ blockLines (restBuffer (buffer ++ c1) ++ c2) := by
    unfold blockLines
    rw [← List.append_assoc, hsplit, List.dropLast_append_of_ne_nil _ hne,
      List.flatMap_append]
  have hrb : restBuffer (buffer ++ (c1 ++ c2)) =
      restBuffer (restBuffer (buffer ++ c1) ++ c2) := by
    unfold restBuffer
    rw [← List.append_assoc, hsplit, List.getLast?_append_of_ne_nil _ hne]
    rfl
  simp only [runStream, hbl, hrb, processLines_append]
  by_cases h1 : (processLines (blockLines (buffer ++ c1))).2
  · simp [h1]
  · by_cases h2 : (processLines (blockLines (restBuffer (buffer ++ c1) ++ c2))).2 <;>
      simp [h1, h2]

/-- Any chunking of the transport text gives the same read-loop outcome as
delivering the whole text in one chunk. -/
theorem runStream_collapse (cs : List (List Char)) (buffer : List Char) (h : cs ≠ []) :
    runStream (cs.map ReadEvent.chunk) buffer =
      runStream [ReadEvent.chunk cs.flatten] buffer := by
  match cs with
  | [] => exact absurd rfl h
  | [c] => simp
  | c :: c2 :: tl2 =>
    have hmerge := runStream_merge buffer c c2 (tl2.map ReadEvent.chunk)
    have hrec := runStream_collapse ((c ++ c2) :: tl2) buffer (by simp)
    simp only [List.map_cons] at hrec ⊢
    rw [hmerge, hrec]
    simp [List.append_assoc]
termination_by cs.length

/-- The data line of one encoded fragment block (without the terminator). -/
def dataLine (s : List Char) : List Char :=
  "data: ".data ++ deltaPayload s

/-- Splitting a newline-free prefix followed by a separator peels one part. -/
theorem splitNN_block (x r : List Char) (h : ∀ c ∈ x, c ≠ '\n') :
    splitNN (x ++ '\n' :: '\n' :: r) = x :: splitNN r := by
  induction x with
  | nil => simp [splitNN]
  | cons c cs ih =>
    have hc : c ≠ '\n' := h c (by simp)
    rw [List.cons_append, splitNN_cons,
      if_neg (fun hh => hc hh.1), ih (fun y hy => h y (by simp [hy]))]
    simp [consHead]

/-- A newline-free text is a single line. -/
theorem splitNl_no_nl (x : List Char) (h : ∀ c ∈ x, c ≠ '\n') : splitNl x = [x] := by
  induction x with
  | nil => simp [splitNl]
  | cons c cs ih =>
    have hc : c ≠ '\n' := h c (by simp)
    simp [splitNl, hc, ih (fun y hy => h y (by simp [hy])), consHead]

/-- Plain fragments produce newline-free data lines. -/
theorem dataLine_no_nl (s : List Char) (h : ∀ c ∈ s, plainChar c = true) :
    ∀ c ∈ dataLine s, c ≠ '\n' := by
  intro c hc he
  subst he
  simp only [dataLine, deltaPayload, List.mem_append] at hc
  rcases hc with hx | ((hx | hx) | hx)
  · exact absurd hx (by decide)
  · exact absurd hx (by decide)
  · have := h '\n' hx
    simp [plainChar] at this
  · exact absurd hx (by decide)

/-- Splitting a well-formed encoded stream yields one part per fragment plus
an empty retained part. -/
theorem splitNN_encode (fs : List (List Char))
    (h : ∀ f ∈ fs, ∀ c ∈ f, plainChar c = true) :
    splitNN (encodeStream fs) = fs.map dataLine ++ [[]] := by
  induction fs with
  | nil => simp [encodeStream, splitNN]
  | cons f tl ih =>
    have hf : ∀ c ∈ dataLine f, c ≠ '\n' := dataLine_no_nl f (h f (by simp))
    have hsh : encodeStream (f :: tl) = dataLine f ++ '\n' :: '\n' :: encodeStream tl := by
      simp [encodeStream, deltaBlock, dataLine]
    rw [hsh, splitNN_block _ _ hf, ih (fun g hg => h g (by simp [hg]))]
    simp

/-- The complete blocks of a well-formed encoded stream are exactly its data
lines, and nothing is retained in the buffer. -/
theorem blockLines_encode (fs : List (List Char))
    (h : ∀ f ∈ fs, ∀ c ∈ f, plainChar c = true) :
    blockLines (encodeStream fs) = fs.map dataLine ∧
      restBuffer (encodeStream fs) = [] := by
  have haux : ∀ (L : List (List Char)), (∀ x ∈ L, splitNl x = [x]) →
      L.flatMap splitNl = L := by
    intro L hL
    induction L with
    | nil => simp
    | cons a t iht =>
      simp [hL a (by simp), iht (fun y hy => hL y (by simp [hy]))]
  constructor
  · unfold blockLines
    rw [splitNN_encode fs h, List.dropLast_concat]
    apply haux
    intro x hx
    obtain ⟨f, hf, rfl⟩ := List.mem_map.mp hx
    exact splitNl_no_nl _ (dataLine_no_nl f (h f hf))
  · unfold restBuffer
    rw [splitNN_encode fs h]
    simp

/-- Lexing a plain string body: the characters are taken verbatim up to the
closing quote. -/
theorem lexStr_plain (s rest : List Char) (h : ∀ c ∈ s, plainChar c = true) :
    lexStr (s ++ '"' :: rest) = some (s, rest) := by
  induction s with
  | nil => simp [lexStr.eq_def]
  | cons c cs ih =>
    have hc := h c (by simp)
    simp only [plainChar, Bool.and_eq_true, decide_eq_true_eq] at hc
    have ih' := ih (fun x hx => h x (by simp [hx]))
    rw [List.cons_append, lexStr.eq_def]
    dsimp only
    rw [if_neg hc.1.1, if_neg hc.1.2, if_neg (show ¬ (c.toNat < 32) by omega), ih']
    rfl

/-- One parser step: an object opens. -/
theorem pv_obrace (fuel : Nat) (rest : List Char) :
    parseVal (fuel + 1) ('\x7b' :: rest) = parseObjFields fuel rest := rfl

/-- One parser step: an array opens. -/
theorem pv_obracket (fuel : Nat) (rest : List Char) :
    parseVal (fuel + 1) ('[' :: rest) = parseArrElems fuel rest := rfl

/-- One parser step: a string value is lexed. -/
theorem pv_quote (fuel : Nat) (rest : List Char) :
    parseVal (fuel + 1) ('"' :: rest) =
      (lexStr rest).map (fun r => (Json.str r.1, r.2)) := rfl

/-- One parser step: an object closes after its members. -/
theorem parseObjTail_close (fuel : Nat) (acc : List (List Char × Json)) (rest : List Char) :
    parseObjTail (fuel + 1) acc ('\x7d' :: rest) = some (Json.obj acc.reverse, rest) := rfl

/-- One parser step: an array closes after its elements. -/
theorem parseArrTail_close (fuel : Nat) (acc : List Json) (rest : List Char) :
    parseArrTail (fuel + 1) acc (']' :: rest) = some (Json.arr acc.reverse, rest) := rfl

/-- One parser step: a non-empty array parses its first element. -/
theorem parseArrElems_brace (fuel : Nat) (rest : List Char) :
    parseArrElems (fuel + 1) ('\x7b' :: rest) =
      match parseVal fuel ('\x7b' :: rest) with
      | none => none
      | some (v, r) => parseArrTail fuel [v] r := rfl

/-- One parser step: an object member is parsed from its lexed key onward. -/
theorem parseObjFields_step (f : Nat) (rest key rest'' : List Char)
    (hk : lexStr rest = some (key, ':' :: rest'')) :
    parseObjFields (f + 1) ('"' :: rest) =
      match parseVal f rest'' with
      | none => none
      | some (v, r3) => parseObjTail f [(key, v)] r3 := by
  have base : parseObjFields (f + 1) ('"' :: rest) =
      match lexStr rest with
      | none => none
      | some (key1, rest') =>
        match skipWs rest' with
        | [] => none
        | c2 :: r2 =>
          if c2 = ':' then
            match parseVal f r2 with
            | none => none
            | some (v, r3) => parseObjTail f [(key1, v)] r3
          else none := rfl
  rw [base, hk]
  rfl

/-- The parsed form of `deltaPayload s`. -/
def deltaJson (s : List Char) : Json :=
  Json.obj [("choices".data,
    Json.arr [Json.obj [("delta".data, Json.obj [("content".data, Json.str s)])]])]

/-- Symbolic evaluation of the parser on an encoded delta payload. -/
theorem parseVal_deltaPayload (f : Nat) (s : List Char)
    (h : ∀ c ∈ s, plainChar c = true) :
    parseVal (f + 9) (deltaPayload s) = some (deltaJson s, []) := by
  have h9 : parseVal (f + 1) ('"' :: (s ++ '"' :: "\x7d\x7d]\x7d".data)) =
      some (Json.str s, "\x7d\x7d]\x7d".data) := by
    rw [pv_quote, lexStr_plain s _ h]
    rfl
  have h8 : parseObjFields (f + 2)
      ('"' :: ("content\":\"".data ++ s ++ '"' :: "\x7d\x7d]\x7d".data)) =
      some (Json.obj [("content".data, Json.str s)], "\x7d]\x7d".data) := by
    have hk : lexStr ("content\":\"".data ++ s ++ '"' :: "\x7d\x7d]\x7d".data) =
        some ("content".data, ':' :: ('"' :: (s ++ '"' :: "\x7d\x7d]\x7d".data))) := by
      simp [lexStr.eq_def]
    show parseObjFields ((f + 1) + 1) _ = _
    rw [parseObjFields_step (f + 1) _ "content".data _ hk, h9]
    show parseObjTail (f + 1) _ ('\x7d' :: "\x7d]\x7d".data) = _
    rw [show (f + 1 : Nat) = f + 1 from rfl, parseObjTail_close]
    rfl
  have h7 : parseVal (f + 3)
      ('\x7b' :: ("\"content\":\"".data ++ s ++ '"' :: "\x7d\x7d]\x7d".data)) =
      some (Json.obj [("content".data, Json.str s)], "\x7d]\x7d".data) := by
    show parseVal ((f + 2) + 1) _ = _
    rw [pv_obrace]
    show parseObjFields (f + 2)
      ('"' :: ("content\":\"".data ++ s ++ '"' :: "\x7d\x7d]\x7d".data)) = _
    exact h8
  have h6 : parseObjFields (f + 4)
      ('"' :: ("delta\":\x7b\"content\":\"".data ++ s ++ '"' :: "\x7d\x7d]\x7d".data)) =
      some (Json.obj [("delta".data, Json.obj [("content".data, Json.str s)])],
        "]\x7d".data) := by
    have hk : lexStr ("delta\":\x7b\"content\":\"".data ++ s ++ '"' :: "\x7d\x7d]\x7d".data) =
        some ("delta".data,
          ':' :: ('\x7b' :: ("\"content\":\"".data ++ s ++ '"' :: "\x7d\x7d]\x7d".data))) := by
      simp [lexStr.eq_def]
    show parseObjFields ((f + 3) + 1) _ = _
    rw [parseObjFields_step (f + 3) _ "delta".data _ hk]
    show (match parseVal (f + 3)
        ('\x7b' :: ("\"content\":\"".data ++ s ++ '"' :: "\x7d\x7d]\x7d".data)) with
      | none => none
      | some (v, r3) => parseObjTail (f + 3) [("delta".data, v)] r3) = _
    rw [h7]
    show parseObjTail ((f + 2) + 1) _ ('\x7d' :: "]\x7d".data) = _
    rw [parseObjTail_close]
    rfl
  have h5 : parseVal (f + 5)
      ('\x7b' :: ("\"delta\":\x7b\"content\":\"".data ++ s ++ '"' :: "\x7d\x7d]\x7d".data)) =
      some (Json.obj [("delta".data, Json.obj [("content".data, Json.str s)])],
        "]\x7d".data) := by
    show parseVal ((f + 4) + 1) _ = _
    rw [pv_obrace]
    show parseObjFields (f + 4)
      ('"' :: ("delta\":\x7b\"content\":\"".data ++ s ++ '"' :: "\x7d\x7d]\x7d".data)) = _
    exact h6
  have h4 : parseArrElems (f + 6)
      ('\x7b' :: ("\"delta\":\x7b\"content\":\"".data ++ s ++ '"' :: "\x7d\x7d]\x7d".data)) =
      some (Json.arr [Json.obj [("delta".data, Json.obj [("content".data, Json.str s)])]],
        "\x7d".data) := by
    show parseArrElems ((f + 5) + 1) _ = _
    rw [parseArrElems_brace, h5]
    show parseArrTail ((f + 4) + 1) _ (']' :: "\x7d".data) = _
    rw [parseArrTail_close]
    rfl
  have h3 : parseVal (f + 7)
      ('[' :: ('\x7b' :: ("\"delta\":\x7b\"content\":\"".data ++ s ++ '"' :: "\x7d\x7d]\x7d".data))) =
      some (Json.arr [Json.obj [("delta".data, Json.obj [("content".data, Json.str s)])]],
        "\x7d".data) := by
    show parseVal ((f + 6) + 1) _ = _
    rw [pv_obracket]
    exact h4
  have h2 : parseObjFields (f + 8)
      ('"' :: ("choices\":[\x7b\"delta\":\x7b\"content\":\"".data ++ s ++ '"' :: "\x7d\x7d]\x7d".data)) =
      some (deltaJson s, []) := by
    have hk : lexStr
        ("choices\":[\x7b\"delta\":\x7b\"content\":\"".data ++ s ++ '"' :: "\x7d\x7d]\x7d".data) =
        some ("choices".data,
          ':' :: ('[' :: ('\x7b' ::
            ("\"delta\":\x7b\"content\":\"".data ++ s ++ '"' :: "\x7d\x7d]\x7d".data)))) := by
      simp [lexStr.eq_def]
    show parseObjFields ((f + 7) + 1) _ = _
    rw [parseObjFields_step (f + 7) _ "choices".data _ hk]
    show (match parseVal (f + 7)
        ('[' :: ('\x7b' :: ("\"delta\":\x7b\"content\":\"".data ++ s ++ '"' :: "\x7d\x7d]\x7d".data))) with
      | none => none
      | some (v, r3) => parseObjTail (f + 7) [("choices".data, v)] r3) = _
    rw [h3]
    show parseObjTail ((f + 6) + 1) _ ('\x7d' :: []) = _
    rw [parseObjTail_close]
    rfl
  show parseVal ((f + 8) + 1)
    ('\x7b' :: ("\"choices\":[\x7b\"delta\":\x7b\"content\":\"".data ++ s ++ '"' :: "\x7d\x7d]\x7d".data)) = _
  rw [pv_obrace]
  exact h2

/-- Parser monotonicity: success at some fuel is preserved by more fuel. -/
theorem parse_mono : ∀ fuel : Nat,
    (∀ i r, parseVal fuel i = some r → parseVal (fuel + 1) i = some r) ∧
    (∀ i r, parseArrElems fuel i = some r → parseArrElems (fuel + 1) i = some r) ∧
    (∀ a i r, parseArrTail fuel a i = some r → parseArrTail (fuel + 1) a i = some r) ∧
    (∀ i r, parseObjFields fuel i = some r → parseObjFields (fuel + 1) i = some r) ∧
    (∀ a i r, parseObjTail fuel a i = some r → parseObjTail (fuel + 1) a i = some r) := by
  intro fuel
  induction fuel with
  | zero =>
    refine ⟨fun i r hp => ?_, fun i r hp => ?_, fun a i r hp => ?_, fun i r hp => ?_,
      fun a i r hp => ?_⟩ <;>
      simp [parseVal, parseArrElems, parseArrTail, parseObjFields, parseObjTail] at hp
  | succ f ih =>
    obtain ⟨ihV, ihA, ihAT, ihO, ihOT⟩ := ih
    refine ⟨?_, ?_, ?_, ?_, ?_⟩
    · intro i r hp
      simp only [parseVal] at hp ⊢
      cases hsw : skipWs i with
      | nil => (try rw [hsw] at hp); exact absurd hp (by simp)
      | cons c rest =>
        try rw [hsw] at hp
        dsimp only at hp ⊢
        by_cases h1 : c = '"'
        · rwa [if_pos h1] at hp ⊢
        rw [if_neg h1] at hp ⊢
        by_cases h2 : c = '\x7b'
        · rw [if_pos h2] at hp ⊢
          exact ihO _ _ hp
        rw [if_neg h2] at hp ⊢
        by_cases h3 : c = '['
        · rw [if_pos h3] at hp ⊢
          exact ihA _ _ hp
        rw [if_neg h3] at hp ⊢
        by_cases h4 : c = 't'
        · rwa [if_pos h4] at hp ⊢
        rw [if_neg h4] at hp ⊢
        by_cases h5 : c = 'f'
        · rwa [if_pos h5] at hp ⊢
        rw [if_neg h5] at hp ⊢
        by_cases h6 : c = 'n'
        · rwa [if_pos h6] at hp ⊢
        rwa [if_neg h6] at hp ⊢
    · intro i r hp
      simp only [parseArrElems] at hp ⊢
      cases hsw : skipWs i with
      | nil => (try rw [hsw] at hp); exact absurd hp (by simp)
      | cons c rest =>
        try rw [hsw] at hp
        dsimp only at hp ⊢
        by_cases h1 : c = ']'
        · rwa [if_pos h1] at hp ⊢
        rw [if_neg h1] at hp ⊢
        cases hpv : parseVal f (c :: rest) with
        | none => (try rw [hpv] at hp); exact absurd hp (by simp)
        | some vr =>
          obtain ⟨v, r2⟩ := vr
          try rw [hpv] at hp
          rw [ihV _ _ hpv]
          exact ihAT _ _ _ hp
    · intro a i r hp
      simp only [parseArrTail] at hp ⊢
      cases hsw : skipWs i with
      | nil => (try rw [hsw] at hp); exact absurd hp (by simp)
      | cons c rest =>
        try rw [hsw] at hp
        dsimp only at hp ⊢
        by_cases h1 : c = ']'
        · rwa [if_pos h1] at hp ⊢
        rw [if_neg h1] at hp ⊢
        by_cases h2 : c = ','
        · rw [if_pos h2] at hp ⊢
          cases hpv : parseVal f rest with
          | none => (try rw [hpv] at hp); exact absurd hp (by simp)
          | some vr =>
            obtain ⟨v, r2⟩ := vr
            try rw [hpv] at hp
            rw [ihV _ _ hpv]
            exact ihAT _ _ _ hp
        · rwa [if_neg h2] at hp ⊢
    · intro i r hp
      simp only [parseObjFields] at hp ⊢
      cases hsw : skipWs i with
      | nil => (try rw [hsw] at hp); exact absurd hp (by simp)
      | cons c rest =>
        try rw [hsw] at hp
        dsimp only at hp ⊢
        by_cases h1 : c = '\x7d'
        · rwa [if_pos h1] at hp ⊢
        rw [if_neg h1] at hp ⊢
        by_cases h2 : c = '"'
        · rw [if_pos h2] at hp ⊢
          cases hlex : lexStr rest with
          | none => (try rw [hlex] at hp); exact absurd hp (by simp)
          | some kv =>
            obtain ⟨key, rest'⟩ := kv
            try rw [hlex] at hp
            dsimp only at hp ⊢
            cases hsw2 : skipWs rest' with
            | nil => (try rw [hsw2] at hp); exact absurd hp (by simp)
            | cons c2 r2 =>
              try rw [hsw2] at hp
              dsimp only at hp ⊢
              by_cases h3 : c2 = ':'
              · rw [if_pos h3] at hp ⊢
                cases hpv : parseVal f r2 with
                | none => (try rw [hpv] at hp); exact absurd hp (by simp)
                | some vr =>
                  obtain ⟨v, r3⟩ := vr
                  try rw [hpv] at hp
                  rw [ihV _ _ hpv]
                  exact ihOT _ _ _ hp
              · rwa [if_neg h3] at hp ⊢
        · rwa [if_neg h2] at hp ⊢
    · intro a i r hp
      simp only [parseObjTail] at hp ⊢
      cases hsw : skipWs i with
      | nil => (try rw [hsw] at hp); exact absurd hp (by simp)
      | cons c rest =>
        try rw [hsw] at hp
        dsimp only at hp ⊢
        by_cases h1 : c = '\x7d'
        · rwa [if_pos h1] at hp ⊢
        rw [if_neg h1] at hp ⊢
        by_cases h2 : c = ','
        · rw [if_pos h2] at hp ⊢
          cases hsw2 : skipWs rest with
          | nil => (try rw [hsw2] at hp); exact absurd hp (by simp)
          | cons c2 r2 =>
            try rw [hsw2] at hp
            dsimp only at hp ⊢
            by_cases h3 : c2 = '"'
            · rw [if_pos h3] at hp ⊢
              cases hlex : lexStr r2 with
              | none => (try rw [hlex] at hp); exact absurd hp (by simp)
              | some kv =>
                obtain ⟨key, rest''⟩ := kv
                try rw [hlex] at hp
                dsimp only at hp ⊢
                cases hsw3 : skipWs rest'' with
                | nil => (try rw [hsw3] at hp); exact absurd hp (by simp)
                | cons c3 r3 =>
                  try rw [hsw3] at hp
                  dsimp only at hp ⊢
                  by_cases h4 : c3 = ':'
                  · rw [if_pos h4] at hp ⊢
                    cases hpv : parseVal f r3 with
                    | none => (try rw [hpv] at hp); exact absurd hp (by simp)
                    | some vr =>
                      obtain ⟨v, r4⟩ := vr
                      try rw [hpv] at hp
                      rw [ihV _ _ hpv]
                      exact ihOT _ _ _ hp
                  · rwa [if_neg h4] at hp ⊢
            · rwa [if_neg h3] at hp ⊢
        · rwa [if_neg h2] at hp ⊢

/-- Success at fuel `f` is preserved at any fuel `g ≥ f`. -/
theorem parseVal_mono_le (f g : Nat) (h : f ≤ g) (i : List Char) (r : Json × List Char)
    (hp : parseVal f i = some r) : parseVal g i = some r := by
  induction g, h using Nat.le_induction with
  | base => exact hp
  | succ n hn ih => exact (parse_mono n).1 _ _ ih

/-- The model of `JSON.parse` accepts an encoded delta payload. -/
theorem parseJson_deltaPayload (s : List Char) (h : ∀ c ∈ s, plainChar c = true) :
    parseJson (deltaPayload s) = some (deltaJson s) := by
  unfold parseJson
  have hl1 : ("\x7b\"choices\":[\x7b\"delta\":\x7b\"content\":\"".data).length = 33 := rfl
  have hl2 : ("\"\x7d\x7d]\x7d".data).length = 5 := rfl
  have hlen : (deltaPayload s).length = 33 + s.length + 5 := by
    simp [deltaPayload, List.length_append, hl1, hl2]
    omega
  have hv : parseVal (2 * (deltaPayload s).length + 2) (deltaPayload s) =
      some (deltaJson s, []) := by
    refine parseVal_mono_le (0 + 9) _ (by omega) _ _ ?_
    exact parseVal_deltaPayload 0 s h
  rw [hv]
  rfl

/-- The optional chain extracts the content from the parsed payload. -/
theorem contentOf_deltaJson (s : List Char) : contentOf (deltaJson s) = some s := rfl

/-- A list bounded by non-whitespace characters is unchanged by trimming. -/
theorem trimChars_of_ends (l : List Char) (c d : Char) (mid : List Char)
    (hform : l = c :: (mid ++ [d])) (hc : isWsChar c = false) (hd : isWsChar d = false) :
    trimChars l = l := by
  subst hform
  unfold trimChars
  have e1 : List.dropWhile isWsChar (c :: (mid ++ [d])) = c :: (mid ++ [d]) := by
    rw [List.dropWhile_cons, hc]
    simp
  rw [e1]
  have e2 : (c :: (mid ++ [d])).reverse = d :: (mid.reverse ++ [c]) := by simp
  rw [e2]
  have e3 : List.dropWhile isWsChar (d :: (mid.reverse ++ [c])) = d :: (mid.reverse ++ [c]) := by
    rw [List.dropWhile_cons, hd]
    simp
  rw [e3, ← e2, List.reverse_reverse]

/-- The line loop turns one encoded data line into its fragment (or skips an
empty fragment, which is falsy in the source). -/
theorem processLine_dataLine (s : List Char) (h : ∀ c ∈ s, plainChar c = true) :
    processLine (dataLine s) = if s = [] then LineResult.skip else LineResult.delta s := by
  have hcons : deltaPayload s =
      '\x7b' :: ("\"choices\":[\x7b\"delta\":\x7b\"content\":\"".data ++ s ++
        "\"\x7d\x7d]\x7d".data) := rfl
  have hpre : ("data:".data.isPrefixOf (dataLine s)) = true := rfl
  have hdrop : (dataLine s).drop 5 = ' ' :: deltaPayload s := rfl
  have hpay : trimChars (deltaPayload s) = deltaPayload s := by
    refine trimChars_of_ends _ '\x7b' '\x7d'
      ("\"choices\":[\x7b\"delta\":\x7b\"content\":\"".data ++ s ++ ['"', '\x7d', '\x7d', ']'])
      ?_ (by decide) (by decide)
    simp [deltaPayload]
  have hws : trimChars (' ' :: deltaPayload s) = trimChars (deltaPayload s) := by
    unfold trimChars
    rw [List.dropWhile_cons, if_pos (show isWsChar ' ' = true by decide)]
  have hdata : trimChars ((dataLine s).drop 5) = deltaPayload s := by
    rw [hdrop, hws, hpay]
  have hne : (deltaPayload s = []) = False := by
    rw [hcons]
    simp
  have hnd : (deltaPayload s = "[DONE]".data) = False := by
    rw [hcons]
    simp
  simp only [processLine, hpre, hdata, hne, hnd, parseJson_deltaPayload s h]
  simp [contentOf_deltaJson]

/-- The line loop over the encoded data lines yields exactly the non-empty
fragments, in order, without terminating. -/
theorem processLines_dataLines (fs : List (List Char))
    (h : ∀ f ∈ fs, ∀ c ∈ f, plainChar c = true) :
    processLines (fs.map dataLine) = (fs.filter (fun f => f ≠ []), false) := by
  induction fs with
  | nil => simp [processLines]
  | cons f tl ih =>
    have hf := processLine_dataLine f (h f (by simp))
    have ih' := ih (fun g hg => h g (by simp [hg]))
    by_cases he : f = []
    · subst he
      simp only [if_pos rfl] at hf
      simp [processLines, hf, ih']
    · simp only [if_neg he] at hf
      simp [processLines, hf, he, ih']

/-- The read loop over a single well-formed encoded chunk yields exactly the
non-empty fragments and no error. -/
theorem runStream_encode (fs : List (List Char))
    (h : ∀ f ∈ fs, ∀ c ∈ f, plainChar c = true) :
    runStream [ReadEvent.chunk (encodeStream fs)] [] =
      (fs.filter (fun f => f ≠ []), none) := by
  obtain ⟨hbl, _⟩ := blockLines_encode fs h
  simp [runStream, hbl, processLines_dataLines fs h]

/-- C7: for every fragment list delivered by the upstream stream, under any
chunking of the transport text, the session broadcasts exactly one
`assistant_delta` per non-empty fragment, in order, followed by exactly one
`assistant_done`. -/
theorem stream_fragment_ordering (fs chunks : List (List Char)) (mid text : String)
    (ts1 ts2 : Nat) (uuid : String) (status : Nat) (errText : String)
    (hplain : ∀ f ∈ fs, ∀ c ∈ f, plainChar c = true)
    (hchunks : chunks.flatten = encodeStream fs) :
    (onMessage false (ClientMsg.user_message mid text) ts1 ts2 uuid
        ⟨true, status, some (chunks.map ReadEvent.chunk), errText⟩).events =
      ServerMsg.message_added Role.user mid text ts1 ::
      ServerMsg.message_added Role.assistant ("a_" ++ uuid) "" ts2 ::
      ((fs.filter (fun f => f ≠ [])).map
        (fun f => ServerMsg.assistant_delta ("a_" ++ uuid) ⟨f⟩) ++
        [ServerMsg.assistant_done ("a_" ++ uuid)]) := by
  have hrun : runStream (chunks.map ReadEvent.chunk) [] =
      (fs.filter (fun f => f ≠ []), none) := by
    rcases chunks with _ | ⟨c, cs⟩
    · have hfs : fs = [] := by
        rcases fs with _ | ⟨f, tl⟩
        · rfl
        · exfalso
          have he : encodeStream (f :: tl) = [] := by
            rw [← hchunks]
            rfl
          simp [encodeStream, deltaBlock] at he
      subst hfs
      simp [runStream]
    · rw [runStream_collapse (c :: cs) [] (by simp), hchunks, runStream_encode fs hplain]
  have hstream : streamAssistantReply
      ⟨true, status, some (chunks.map ReadEvent.chunk), errText⟩ =
      (fs.filter (fun f => f ≠ []), none) := by
    unfold streamAssistantReply
    simp [hrun]
  rw [onMessage_events_eq, hstream]
  simp

/-- Witness for C7: the fragments ["Pre", "heat ", "oven."] arriving over a
chunking that splits inside a JSON payload and inside a block separator give
exactly three deltas in order, then one done. -/
theorem stream_fragment_ordering_witness :
    (["data: \x7b\"choi".data,
      ("ces\":[\x7b\"delta\":\x7b\"content\":\"Pre\"\x7d\x7d]\x7d\n\ndata: \x7b\"choices\":[\x7b\"delta\":\x7b\"content\":\"heat \"\x7d\x7d]\x7d\n").data,
      ("\ndata: \x7b\"choices\":[\x7b\"delta\":\x7b\"content\":\"oven.\"\x7d\x7d]\x7d\n\n").data] :
        List (List Char)).flatten =
      encodeStream ["Pre".data, "heat ".data, "oven.".data] ∧
    (onMessage false (ClientMsg.user_message "u1" "How long for salmon?") 1 2 "X"
        ⟨true, 200, some ((["data: \x7b\"choi".data,
          ("ces\":[\x7b\"delta\":\x7b\"content\":\"Pre\"\x7d\x7d]\x7d\n\ndata: \x7b\"choices\":[\x7b\"delta\":\x7b\"content\":\"heat \"\x7d\x7d]\x7d\n").data,
          ("\ndata: \x7b\"choices\":[\x7b\"delta\":\x7b\"content\":\"oven.\"\x7d\x7d]\x7d\n\n").data] :
            List (List Char)).map ReadEvent.chunk), ""⟩).events =
      [ServerMsg.message_added Role.user "u1" "How long for salmon?" 1,
        ServerMsg.message_added Role.assistant "a_X" "" 2,
        ServerMsg.assistant_delta "a_X" "Pre",
        ServerMsg.assistant_delta "a_X" "heat ",
        ServerMsg.assistant_delta "a_X" "oven.",
        ServerMsg.assistant_done "a_X"] := by
  refine ⟨by rfl, ?_⟩
  rw [stream_fragment_ordering ["Pre".data, "heat ".data, "oven.".data] _ "u1"
    "How long for salmon?" 1 2 "X" 200 "" (by decide) (by rfl)]
  rfl
